import Mathlib

/-!
Verification of the OrientaTech document ingestion and retrieval-augmented
search pipeline against its natural-language specification.

The frontend (React, under `frontend/src`) is embedded directly from the
source.  The backend pipeline (validator, anonymizer, chunker, embedder,
vector store, retriever) is not present in the available sources, only its
callers and documentation are; those components are modelled from the spec
and marked as such in their doc comments.
-/

namespace OrientaTech

/- ### Generic helpers (kernel-reducible list utilities) -/

/-- Insert an element into a list sorted by the boolean comparator `le`. -/
def insertBy {α : Type} (le : α → α → Bool) (a : α) : List α → List α
  | [] => [a]
  | b :: bs => if le a b then a :: b :: bs else b :: insertBy le a bs

/-- Insertion sort by the boolean comparator `le` (stable, structural recursion,
so that concrete runs reduce inside the kernel). -/
def sortBy {α : Type} (le : α → α → Bool) : List α → List α
  | [] => []
  | a :: as => insertBy le a (sortBy le as)

theorem length_insertBy {α : Type} (le : α → α → Bool) (a : α) (l : List α) :
    (insertBy le a l).length = l.length + 1 := by
  induction l with
  | nil => rfl
  | cons b bs ih =>
    simp only [insertBy]
    by_cases h : le a b
    · simp [h]
    · simp [h, ih]

theorem length_sortBy {α : Type} (le : α → α → Bool) (l : List α) :
    (sortBy le l).length = l.length := by
  induction l with
  | nil => rfl
  | cons a as ih => simp [sortBy, length_insertBy, ih]

theorem mem_insertBy {α : Type} (le : α → α → Bool) (a x : α) (l : List α) :
    x ∈ insertBy le a l ↔ x = a ∨ x ∈ l := by
  induction l with
  | nil => simp [insertBy]
  | cons b bs ih =>
    simp only [insertBy]
    by_cases h : le a b
    · simp only [if_pos h, List.mem_cons]
    · simp only [if_neg h, List.mem_cons, ih]
      tauto

theorem mem_sortBy {α : Type} (le : α → α → Bool) (x : α) (l : List α) :
    x ∈ sortBy le l ↔ x ∈ l := by
  induction l with
  | nil => simp [sortBy]
  | cons a as ih =>
    simp [sortBy, mem_insertBy, ih, List.mem_cons]

/-- Whether `pat` occurs as a contiguous sublist of `l` (the JavaScript
`String.prototype.includes` over the character list). -/
def containsSub (pat : List Char) : List Char → Bool
  | [] => pat.isPrefixOf []
  | c :: cs => pat.isPrefixOf (c :: cs) || containsSub pat cs

/-- ASCII lowercasing of a character list (models `toLowerCase()`; the
JavaScript version also lowers non-ASCII letters, which none of the
pattern constants below require). -/
def lowerChars (l : List Char) : List Char := l.map Char.toLower

/- ### Registration client (frontend/src/pages/Registration.jsx, handleSubmit) -/

/-- The registration form fields used by `handleSubmit`'s validation and the
register request body.  JavaScript `String.length` counts UTF-16 units; the
embedding counts code points, which agrees on the ASCII passwords at issue. -/
structure RegFormData where
  firstName : String
  lastName : String
  email : String
  password : String
  confirmPassword : String
deriving DecidableEq, Repr

/-- Body of the `POST /auth/register` request built by `handleSubmit`. -/
structure RegisterRequest where
  nombre : String
  email : String
  password : String
deriving DecidableEq, Repr

/-- Outcome of the `handleSubmit` validation phase: either an error message is
set and no network request is issued, or the register request is sent. -/
inductive RegistrationOutcome
  | rejected (message : String)
  | submitted (request : RegisterRequest)
deriving DecidableEq, Repr

/-- `fullName` as built in `handleSubmit`:
`` `${(formData.firstName || '').trim()} ${(formData.lastName || '').trim()}`.trim() ``. -/
def regFullName (fd : RegFormData) : String :=
  (fd.firstName.trim ++ " " ++ fd.lastName.trim).trim

/-- `handleSubmit` (Registration.jsx lines 130-165): checks password
confirmation match, then the 72-character bcrypt ceiling, then the
8-character minimum; on any failure it sets an error and returns before any
fetch, otherwise it issues the register request. -/
def handleSubmit (fd : RegFormData) : RegistrationOutcome :=
  if fd.password ≠ fd.confirmPassword then
    .rejected "Las contraseñas no coinciden"
  else if 72 < fd.password.length then
    .rejected "La contraseña no puede tener más de 72 caracteres"
  else if fd.password.length < 8 then
    .rejected "La contraseña debe tener al menos 8 caracteres"
  else
    .submitted ⟨regFullName fd, fd.email, fd.password⟩

/- ### CV upload client (AssistantTab.jsx handleFileSelect, also duplicated in
     frontend/src/utils/api.js lines 537-553) -/

/-- The `type` and `size` attributes of the selected browser `File`. -/
structure FileInfo where
  type : String
  size : Nat
deriving DecidableEq, Repr

/-- The MIME types accepted by `handleFileSelect` (`allowedTypes`). -/
def allowedTypes : List String :=
  ["application/pdf", "application/msword",
   "application/vnd.openxmlformats-officedocument.wordprocessingml.document"]

/-- The component state touched by `handleFileSelect`. -/
structure UploadPanelState where
  selectedFile : Option FileInfo
  uploadError : Option String
  uploadSuccess : Bool
deriving DecidableEq, Repr

/-- `handleFileSelect` (AssistantTab.jsx lines 34-54): rejects a file whose
declared type is not allowed, then one larger than 5 MB, setting an error
message and leaving the current selection unchanged; otherwise it records the
selection and clears the error. -/
def handleFileSelect (s : UploadPanelState) (file : Option FileInfo) : UploadPanelState :=
  match file with
  | none => s
  | some f =>
    if ¬ allowedTypes.contains f.type then
      { s with uploadError := some "Tipo de archivo no válido. Solo se permiten PDF, DOC y DOCX." }
    else if 5 * 1024 * 1024 < f.size then
      { s with uploadError := some "El archivo es demasiado grande. El tamaño máximo es 5MB." }
    else
      { selectedFile := some f, uploadError := none, uploadSuccess := false }

/- ### RAG assistant client (AssistantTab.jsx handleSendMessage) -/

/-- Body of the search request built by `handleSendMessage`
(`{query, limit: 5, similarity_threshold: 0.3}`); the threshold is kept as a
numerator over the fixed denominator 10. -/
structure ClientSearchRequest where
  query : String
  limit : Nat
  thresholdTenths : Nat
deriving DecidableEq, Repr

/-- A search call the assistant tab issues: target path, the owner id baked
into that path, and the JSON body. -/
structure ClientSearchCall where
  path : String
  ownerId : Nat
  request : ClientSearchRequest
deriving DecidableEq, Repr

/-- The owner-scoped search endpoint path used by the client:
`` `/api/rag/search/user/${userId}` ``. -/
def ragSearchUserPath (userId : Nat) : String :=
  "/api/rag/search/user/" ++ toString userId

/-- `handleSendMessage` request construction (AssistantTab.jsx lines 112-134):
with no authenticated user id it throws and issues no request; otherwise it
posts to the user-scoped endpoint for the user's own id with
`limit = 5` and `similarity_threshold = 0.3`. -/
def buildSearchCall (userId : Option Nat) (inputMessage : String) : Option ClientSearchCall :=
  match userId with
  | none => none
  | some uid => some ⟨ragSearchUserPath uid, uid, ⟨inputMessage, 5, 3⟩⟩

/-- Content preview truncation in the assistant reply (AssistantTab.jsx
line 160): `` `${content.substring(0, 200)}${content.length > 200 ? '...' : ''}` ``. -/
def truncatePreview (content : List Char) : List Char :=
  if 200 < content.length then content.take 200 ++ ['.', '.', '.'] else content

/-- Whether the fixed-position cut of `truncatePreview` falls strictly inside
a word: the content is actually truncated and neither the last kept character
(index 199) nor the first dropped character (index 200) is whitespace. -/
def cutsMidWord (content : List Char) : Bool :=
  decide (200 < content.length) &&
    !(content.getD 199 ' ').isWhitespace && !(content.getD 200 ' ').isWhitespace

/-- The assistant reply message as stored in the chat state; the error path
(the `catch` block) is the only one setting `isError`. -/
structure BotMessage where
  text : String
  isError : Bool
deriving DecidableEq, Repr

/-- The reply built by `handleSendMessage` when the response's `results` array
is empty (AssistantTab.jsx lines 178-188): an informational message, with
`isError` unset (the error marker is only set in the `catch` branch). -/
def emptyResultsReply : BotMessage :=
  { text := "No he encontrado información específica en tus documentos subidos sobre esa consulta."
  , isError := false }

/- ### Resources tab (ResourcesTab.jsx, generateRAGBasedRecommendations) -/

/-- A search result as consumed by the resources tab (only the content fields
are read by `generateRAGBasedRecommendations`). -/
structure RagResult where
  content_preview : Option String
  content : Option String
deriving DecidableEq, Repr

/-- JavaScript truthiness for an optional string: `undefined`, `null` and the
empty string are falsy. -/
def truthy (o : Option String) : Option String :=
  match o with
  | some s => if s = "" then none else some s
  | none => none

/-- `result.content_preview || result.content || ''`. -/
def effContent (r : RagResult) : String :=
  match truthy r.content_preview with
  | some s => s
  | none =>
    match truthy r.content with
    | some s => s
    | none => ""

/-- `allContent`: the contents of all results joined with spaces and
lowercased (ResourcesTab.jsx lines 75-77). -/
def allContentOf (ragResults : List RagResult) : List Char :=
  lowerChars (String.intercalate " " (ragResults.map effContent)).toList

/-- `allContent.includes(pat)` for a pattern literal. -/
def hasSub (allContent : List Char) (pat : String) : Bool :=
  containsSub pat.toList allContent

/-- Decimal value of a digit run (`parseInt` on the first capture group). -/
def natOfDigits (ds : List Char) : Nat :=
  ds.foldl (fun n c => 10 * n + (c.toNat - 48)) 0

/-- Attempt to match the regular expression `(\d+)\s*(año|year|experience)` at
the head of the character list; greedy digits followed by optional whitespace
and one of the three literals (the content is already lowercased, making the
`i` flag moot, and no backtracking can succeed where the greedy run fails). -/
def matchYearsAt (l : List Char) : Option Nat :=
  let ds := l.takeWhile Char.isDigit
  if ds.isEmpty then none
  else
    let rest := (l.drop ds.length).dropWhile Char.isWhitespace
    if "año".toList.isPrefixOf rest || "year".toList.isPrefixOf rest ||
        "experience".toList.isPrefixOf rest then
      some (natOfDigits ds)
    else none

/-- Leftmost match of `(\d+)\s*(año|year|experience)` — the `String.match`
call computing `yearsOfExp` (ResourcesTab.jsx lines 114-115). -/
def findYears : List Char → Option Nat
  | [] => none
  | c :: cs =>
    match matchYearsAt (c :: cs) with
    | some n => some n
    | none => findYears cs

/-- Recommendation priorities, mapped to ranks by `priorityOrder`. -/
inductive RecPriority
  | low
  | medium
  | high
deriving DecidableEq, Repr

/-- `priorityOrder = { high: 3, medium: 2, low: 1 }`. -/
def priorityOrder : RecPriority → Nat
  | .high => 3
  | .medium => 2
  | .low => 1

/-- One entry of the recommendations array built by
`generateRAGBasedRecommendations`. -/
structure Recommendation where
  type : String
  title : String
  description : String
  priority : RecPriority
  category : String
  based_on : String
deriving DecidableEq, Repr

/-- The fallback recommendation pushed when no rule fired
(ResourcesTab.jsx lines 190-199). -/
def generalImprovementRec : Recommendation :=
  { type := "general_improvement"
  , title := "Optimiza la Estructura de tu CV"
  , description := "Tu CV necesita mejoras en estructura y contenido. Añade proyectos específicos, métricas de impacto y tecnologías actualizadas."
  , priority := .medium
  , category := "CV Optimization"
  , based_on := "Análisis general de tu CV" }

/-- The rule-driven recommendations (ResourcesTab.jsx lines 82-187), in push
order: technical-skills gap, DevOps gap, experience level (if/else-if),
certifications, English, GitHub presence, soft skills. -/
def ruleRecommendations (allContent : List Char) : List Recommendation :=
  let hasBasicJS := hasSub allContent "javascript"
  let hasReact := hasSub allContent "react"
  let hasTypeScript := hasSub allContent "typescript"
  let hasNode := hasSub allContent "node"
  let hasPython := hasSub allContent "python"
  let hasDocker := hasSub allContent "docker"
  let yearsOfExp := (findYears allContent).getD 0
  let hasEnglish := hasSub allContent "english" || hasSub allContent "inglés"
  let hasGithub := hasSub allContent "github"
  (if (hasBasicJS || hasReact) && !hasTypeScript then
    [{ type := "skill_gap"
     , title := "Aprende TypeScript para Destacar"
     , description := "Detecté experiencia en JavaScript/React en tu CV, pero no TypeScript. Esta tecnología es altamente demandada y te diferenciará en el mercado."
     , priority := .high
     , category := "Desarrollo Técnico"
     , based_on := "Análisis de gap técnico en tu CV" }]
  else []) ++
  (if (hasNode || hasPython) && !hasDocker then
    [{ type := "devops_gap"
     , title := "Incorpora Contenedores y DevOps"
     , description := "Tienes experiencia en backend, pero añadir Docker, Kubernetes y CI/CD te abrirá más oportunidades profesionales."
     , priority := .high
     , category := "DevOps"
     , based_on := "Experiencia backend detectada sin herramientas DevOps" }]
  else []) ++
  (if yearsOfExp < 2 || hasSub allContent "junior" || hasSub allContent "becario" then
    [{ type := "career_boost"
     , title := "Acelera tu Crecimiento Profesional"
     , description := "Como desarrollador junior, enfócate en crear 2-3 proyectos sólidos, contribuir a open source y obtener una primera certificación técnica."
     , priority := .high
     , category := "Crecimiento Profesional"
     , based_on := "Nivel junior detectado en tu CV" }]
  else if 3 ≤ yearsOfExp then
    [{ type := "senior_growth"
     , title := "Evoluciona hacia Roles de Liderazgo"
     , description := "Con tu experiencia, considera roles de tech lead, arquitectura de software o especialización en un dominio específico."
     , priority := .medium
     , category := "Liderazgo Técnico"
     , based_on := toString yearsOfExp ++ "+ años de experiencia detectados" }]
  else []) ++
  (if !hasSub allContent "certificación" && !hasSub allContent "certificate" then
    [{ type := "certification"
     , title := "Obtén Certificaciones Reconocidas"
     , description := "Tu CV no muestra certificaciones. Considera AWS Solutions Architect, Microsoft Azure, o certificaciones de Google Cloud según tu stack."
     , priority := .medium
     , category := "Certificaciones"
     , based_on := "No se detectaron certificaciones en tu CV" }]
  else []) ++
  (if !hasEnglish || hasSub allContent "básico" then
    [{ type := "language"
     , title := "Mejora tu Inglés Técnico"
     , description := "El inglés avanzado es crítico en tech. Practica con documentación técnica, participa en foros internacionales y considera certificaciones."
     , priority := .medium
     , category := "Habilidades Blandas"
     , based_on := if hasEnglish then "Inglés básico detectado" else "No se menciona nivel de inglés" }]
  else []) ++
  (if !hasGithub then
    [{ type := "online_presence"
     , title := "Fortalece tu Presencia Online"
     , description := "No detecté GitHub en tu CV. Crea un portfolio en GitHub con 3-5 proyectos que demuestren tu nivel técnico y buenas prácticas."
     , priority := .high
     , category := "Portfolio Online"
     , based_on := "No se detectó GitHub en tu CV" }]
  else []) ++
  (if !hasSub allContent "liderazgo" && !hasSub allContent "team" && !hasSub allContent "equipo" then
    [{ type := "soft_skills"
     , title := "Desarrolla Habilidades de Colaboración"
     , description := "Fortalece competencias en trabajo en equipo, comunicación técnica y metodologías ágiles. Son diferenciadoras en roles senior."
     , priority := .low
     , category := "Habilidades Blandas"
     , based_on := "Pocas referencias a trabajo en equipo en tu CV" }]
  else [])

/-- The profile object the resources tab receives; the recommendation
generator takes it as a parameter but never reads it. -/
structure ProfileData where
  area_of_interest : Option String
  main_skills : Option String
deriving DecidableEq, Repr

/-- Descending order on priority rank — the JavaScript comparator
`(a, b) => priorityOrder[b.priority] - priorityOrder[a.priority]`. -/
def recLE (a b : Recommendation) : Bool :=
  priorityOrder b.priority ≤ priorityOrder a.priority

/-- `generateRAGBasedRecommendations` (ResourcesTab.jsx lines 71-208):
collects the rule recommendations, appends the general fallback when the
list is empty, sorts by priority descending and keeps the first four. -/
def generateRAGBasedRecommendations (ragResults : List RagResult)
    (profile : Option ProfileData) : List Recommendation :=
  let allContent := allContentOf ragResults
  let recommendations := ruleRecommendations allContent
  let recommendations :=
    if recommendations.isEmpty then [generalImprovementRec] else recommendations
  (sortBy recLE recommendations).take 4

/- ### Spec-modelled backend: scores -/

/-- Modelled from the spec (§4.6): a similarity score in `[0,1]`, kept as a
formal fraction `num / den` with positive denominator so that comparisons are
plain natural-number arithmetic. -/
structure Score where
  num : Nat
  den : Nat
deriving DecidableEq, Repr

/-- Fraction comparison `a ≤ b` by cross-multiplication. -/
def Score.le (a b : Score) : Bool :=
  a.num * b.den ≤ b.num * a.den

/-- Strict fraction comparison `a < b` by cross-multiplication. -/
def Score.lt (a b : Score) : Bool :=
  a.num * b.den < b.num * a.den

/- ### Spec-modelled backend: embedder and chunker -/

/-- Modelled from the spec (§4.5, §6 configuration): the fixed embedding
dimensionality `D`, constant for the lifetime of the deployment. -/
def embeddingDim : Nat := 8

/-- Modelled from the spec (§4.5): the Embedder, a pure (hence deterministic)
function from chunk text to a vector of dimension `embeddingDim`; the concrete
per-coordinate mixing stands in for the unavailable model backend. -/
def embed (text : String) : List Int :=
  (List.range embeddingDim).map
    (fun i => ((text.toList.foldl (fun h c => (h * 31 + c.toNat + i) % 1009) (i + 7) : Nat) : Int))

/-- Modelled from the spec (§4.4, §6 configuration): chunk window size in
characters. -/
def chunkWindowSize : Nat := 200

/-- Modelled from the spec (§4.4, §6 configuration): overlap between
consecutive chunks, in characters. -/
def chunkOverlap : Nat := 50

/-- Modelled from the spec (§4.4): the Chunker — overlapping windows of
`chunkWindowSize` characters starting every `chunkWindowSize - chunkOverlap`
characters; empty text yields zero chunks. -/
def chunkPieces (text : String) : List String :=
  let step := chunkWindowSize - chunkOverlap
  ((List.range text.length).filter (fun i => i % step == 0)).map
    (fun i => String.mk ((text.toList.drop i).take chunkWindowSize))

/-- Chunk texts paired with their embeddings, as handed to the Vector Store. -/
def indexChunkData (text : String) : List (String × List Int) :=
  (chunkPieces text).map (fun p => (p, embed p))

/- ### Spec-modelled backend: anonymizer -/

/-- Modelled from the spec (§4.3): the characters a phone number may consist
of — digits, a plus sign, separators and parentheses. -/
def isPhoneChar (c : Char) : Bool :=
  c.isDigit || c == '+' || c == '-' || c == ' ' || c == '(' || c == ')'

/-- Modelled from the spec (§4.3): an email-shaped piece of text — it contains
an `@` and a dot. -/
def IsEmailShaped (t : List Char) : Prop := '@' ∈ t ∧ '.' ∈ t

/-- Modelled from the spec (§4.3): a phone-shaped piece of text — at least
seven digits, all characters drawn from the phone alphabet. -/
def IsPhoneShaped (t : List Char) : Prop :=
  7 ≤ (t.filter Char.isDigit).length ∧ ∀ c ∈ t, isPhoneChar c = true

/-- Modelled from the spec (§4.3): the stable category placeholder for an
email address. -/
def emailPlaceholder : List Char := "[EMAIL]".toList

/-- Modelled from the spec (§4.3): the stable category placeholder for a
phone number. -/
def phonePlaceholder : List Char := "[PHONE]".toList

/-- Email pattern matching on one completed token: any whitespace-free token
containing an `@` is replaced by the email placeholder. -/
def emailEmit (tok : List Char) : List Char :=
  if '@' ∈ tok then emailPlaceholder else tok

/-- Modelled from the spec (§4.3): the email pattern layer — a left-to-right
scan over the text accumulating the current whitespace-free token, emitting
it through `emailEmit` at each whitespace boundary and at the end. -/
def emailAux : List Char → List Char → List Char
  | tok, [] => emailEmit tok
  | tok, c :: cs =>
    if c.isWhitespace then emailEmit tok ++ c :: emailAux [] cs
    else emailAux (tok ++ [c]) cs

/-- The email pattern layer over a whole text. -/
def emailPass (text : List Char) : List Char := emailAux [] text

/-- Phone pattern matching on one completed maximal phone-alphabet run: a run
holding at least seven digits is replaced by the phone placeholder. -/
def phoneEmit (run : List Char) : List Char :=
  if 7 ≤ (run.filter Char.isDigit).length then phonePlaceholder else run

/-- Modelled from the spec (§4.3): the phone pattern layer — a left-to-right
scan accumulating the current maximal run of phone-alphabet characters
(digit groups joined by spaces, dashes or parentheses span one run, so a
number like `+34 600 11 22 33` is matched across its spaces), emitting it
through `phoneEmit` at each non-phone character and at the end. -/
def phoneAux : List Char → List Char → List Char
  | run, [] => phoneEmit run
  | run, c :: cs =>
    if isPhoneChar c then phoneAux (run ++ [c]) cs
    else phoneEmit run ++ c :: phoneAux [] cs

/-- The phone pattern layer over a whole text. -/
def phonePass (text : List Char) : List Char := phoneAux [] text

/-- Modelled from the spec (§4.3): the Anonymizer over the extracted text as
a character sequence.  The named-entity layer — abstracted as an arbitrary
text transformation `entity` — runs only when available; the deterministic
pattern layers (emails, then phone numbers, both by substring matching over
the text) always run, after it, so pattern-only redaction is the degraded
fallback. -/
def anonymize (entityAvailable : Bool) (entity : List Char → List Char)
    (text : List Char) : List Char :=
  phonePass (emailPass (if entityAvailable then entity text else text))

/- ### Spec-modelled backend: data model and vector store -/

/-- Modelled from the spec (§3): the Document lifecycle status. -/
inductive DocStatus
  | received
  | validated
  | quarantined
  | extracted
  | anonymized
  | indexed
  | failed
  | deleted
deriving DecidableEq, Repr

/-- Modelled from the spec (§3): the persisted attributes of a Document that
the claims mention — owner, lifecycle status, original filename, upload
timestamp, and the number of chunks produced at indexing time. -/
structure DocRec where
  owner : Nat
  status : DocStatus
  filename : String
  uploadedAt : Nat
  produced : Nat
deriving DecidableEq, Repr

/-- Modelled from the spec (§3): a Chunk — owning document, 0-based sequence
index, text, and embedding vector. -/
structure Chunk where
  docId : Nat
  seq : Nat
  text : String
  vec : List Int
deriving DecidableEq, Repr

/-- Modelled from the spec (§3, §4.6): the persistent state — Document records
keyed by identifier, plus the chunk store. -/
structure DB where
  docs : Nat → Option DocRec
  chunks : List Chunk

/-- The empty initial store. -/
def dbInit : DB := ⟨fun _ => none, []⟩

/-- Replace (or create) the Document record at `id`. -/
def setDoc (db : DB) (id : Nat) (d : DocRec) : DB :=
  { db with docs := fun j => if j = id then some d else db.docs j }

/-- Number of persisted Chunks owned by document `id`. -/
def chunkCount (db : DB) (id : Nat) : Nat :=
  (db.chunks.filter (fun c => c.docId == id)).length

/-- Modelled from the spec (§7): the error taxonomy surfaced by the
caller-facing operations. -/
inductive PipelineError
  | validation
  | authorization
  | notFound
deriving DecidableEq, Repr

/-- Modelled from the spec (§4.1, §6 configuration): upload policy. -/
structure UploadConfig where
  maxSizeBytes : Nat
  allowedContentTypes : List String
deriving DecidableEq, Repr

/-- The deployed configuration: 5 MB ceiling and the PDF/DOC/DOCX set (the
same constants the frontend checks). -/
def uploadConfig : UploadConfig :=
  { maxSizeBytes := 5 * 1024 * 1024, allowedContentTypes := allowedTypes }

/-- Modelled from the spec (§4.1, §6): `submit` — rejects with a
`ValidationError` before any storage occurs when the declared type is not
allowed or the size exceeds the ceiling; on acceptance creates exactly one
Document in state `received` (a fresh identifier is used per attempt). -/
def submit (cfg : UploadConfig) (db : DB) (docId owner : Nat) (filename contentType : String)
    (size uploadedAt : Nat) : Except PipelineError DB :=
  if ¬ cfg.allowedContentTypes.contains contentType then .error .validation
  else if cfg.maxSizeBytes < size then .error .validation
  else
    match db.docs docId with
    | some _ => .ok db
    | none => .ok (setDoc db docId ⟨owner, .received, filename, uploadedAt, 0⟩)

/-- Modelled from the spec (§5): a stage commits by an atomic compare-and-set
on the Document's status; a Document not in the expected predecessor state is
left untouched (cancellation by invalidation). -/
def casStatus (db : DB) (id : Nat) (was nxt : DocStatus) : DB :=
  match db.docs id with
  | some d => if d.status = was then setDoc db id { d with status := nxt } else db
  | none => db

/-- Modelled from the spec (§4.6): `store(document_id, owner_id, chunks)` —
only a Document still in its expected predecessor state `anonymized` commits;
all Chunks and the `indexed` status land in one atomic unit, and zero chunks
(empty anonymized text, §4.4) makes the Document `failed` instead. -/
def store (db : DB) (docId : Nat) (chunkData : List (String × List Int)) : DB :=
  match db.docs docId with
  | none => db
  | some d =>
    if d.status = DocStatus.anonymized then
      if chunkData.isEmpty then
        setDoc db docId { d with status := .failed }
      else
        { docs := fun j =>
            if j = docId then
              some { d with status := .indexed, produced := chunkData.length }
            else db.docs j
        , chunks := db.chunks ++
            chunkData.enum.map (fun p => ⟨docId, p.1, p.2.1, p.2.2⟩) }
    else db

/-- Modelled from the spec (§4.6, §6): `delete(owner_id, document_id)` — fails
with `AuthorizationError` on an owner mismatch and `NotFoundError` on an
unknown id; on success it removes all the document's Chunks atomically with
marking the Document `deleted`. -/
def deleteDocument (db : DB) (owner docId : Nat) : Except PipelineError DB :=
  match db.docs docId with
  | none => .error .notFound
  | some d =>
    if d.owner ≠ owner then .error .authorization
    else
      .ok { docs := fun j =>
              if j = docId then some { d with status := .deleted } else db.docs j
          , chunks := db.chunks.filter (fun c => !(c.docId == docId)) }

/-- Modelled from the spec (§3): re-processing a Document replaces its Chunks
— all prior Chunks are deleted before the freshly embedded ones are created. -/
def reindexDocument (db : DB) (docId : Nat) (text : String) : DB :=
  { db with chunks :=
      db.chunks.filter (fun c => !(c.docId == docId)) ++
        (indexChunkData text).enum.map (fun p => ⟨docId, p.1, p.2.1, p.2.2⟩) }

/-- Modelled from the spec (§4.6): the distance-based similarity — squared
euclidean distance converted monotonically to a score `1 / (1 + d²) ∈ (0,1]`
(the spec allows any monotone equivalent of cosine similarity). -/
def simScore (u v : List Int) : Score :=
  ⟨1, 1 + ((List.zipWith (fun a b => ((a - b).natAbs) ^ 2) u v).sum)⟩

/-- Modelled from the spec (§3): a SearchResult — the matched chunk, the
originating document's display name and upload timestamp, and the similarity
score. -/
structure SearchResult where
  chunk : Chunk
  filename : String
  uploadedAt : Nat
  score : Score
deriving DecidableEq, Repr

/-- Modelled from the spec (§4.6): eligibility of a chunk for a search scoped
to `owner` — its Document must exist, belong to `owner`, and be in the steady
`indexed` state; the scoping is enforced here, inside the store. -/
def eligible (db : DB) (owner : Nat) (c : Chunk) : Bool :=
  match db.docs c.docId with
  | some d => d.owner == owner && d.status == DocStatus.indexed
  | none => false

/-- Modelled from the spec (§4.7): ordering of results — score descending,
ties broken by upload timestamp descending. -/
def resultLE (a b : SearchResult) : Bool :=
  Score.lt b.score a.score || (a.score == b.score && b.uploadedAt ≤ a.uploadedAt)

/-- Modelled from the spec (§4.6, §4.7): owner-scoped similarity search —
eligible chunks are scored against the query vector, results below
`minScore` are excluded entirely, and the survivors are ordered (score
descending, timestamp tie-break) with at most `limit` returned. -/
def searchStore (db : DB) (owner : Nat) (qv : List Int) (limit : Nat) (minScore : Score) :
    List SearchResult :=
  let results := (db.chunks.filter (eligible db owner)).map
    (fun c =>
      { chunk := c
      , filename := (match db.docs c.docId with | some d => d.filename | none => "")
      , uploadedAt := (match db.docs c.docId with | some d => d.uploadedAt | none => 0)
      , score := simScore qv c.vec })
  (sortBy resultLE (results.filter (fun r => Score.le minScore r.score))).take limit

/-- Modelled from the spec (§4.7, §6): the Retriever's caller-facing
`search(owner_id, query_text, limit, min_score)` — embeds the query and runs
the scoped store search; an empty result set is a valid `ok` outcome, never
an error. -/
def retrieverSearch (db : DB) (owner : Nat) (queryText : String) (limit : Nat)
    (minScore : Score) : Except PipelineError (List SearchResult) :=
  .ok (searchStore db owner (embed queryText) limit minScore)

/- ### Spec-modelled backend: the pipeline as a transition system -/

/-- Modelled from the spec (§5, §9): the observable operations on the store;
each stage is a pure transition guarded by the status compare-and-set. -/
inductive Op
  | submitOp (docId owner : Nat) (filename contentType : String) (size uploadedAt : Nat)
  | validateOp (docId : Nat)
  | quarantineOp (docId : Nat)
  | extractOp (docId : Nat) (ok : Bool)
  | anonymizeOp (docId : Nat)
  | storeOp (docId : Nat) (chunkData : List (String × List Int))
  | deleteOp (owner docId : Nat)

/-- Apply one operation; a failing caller-facing operation leaves the store
unchanged. -/
def applyOp (db : DB) : Op → DB
  | .submitOp docId owner filename contentType size uploadedAt =>
    match submit uploadConfig db docId owner filename contentType size uploadedAt with
    | .ok db2 => db2
    | .error _ => db
  | .validateOp docId => casStatus db docId .received .validated
  | .quarantineOp docId => casStatus db docId .received .quarantined
  | .extractOp docId ok =>
    casStatus db docId .validated (if ok then .extracted else .failed)
  | .anonymizeOp docId => casStatus db docId .extracted .anonymized
  | .storeOp docId chunkData => store db docId chunkData
  | .deleteOp owner docId =>
    match deleteDocument db owner docId with
    | .ok db2 => db2
    | .error _ => db

/-- Apply a sequence of operations in order. -/
def applyOps (db : DB) (ops : List Op) : DB := ops.foldl applyOp db

/-- The states reachable from the empty store. -/
inductive Reach : DB → Prop
  | init : Reach dbInit
  | step (db : DB) (op : Op) : Reach db → Reach (applyOp db op)

/- ### Claim theorems -/

/-- Claim C9: for every registration submission in which the two password
fields differ, the password is shorter than 8 characters, or the password is
longer than 72 characters, the registration client sets an error message and
issues no network request; the register call is sent only when all three
checks pass. -/
theorem registration_validation (fd : RegFormData) :
    ((fd.password ≠ fd.confirmPassword ∨ fd.password.length < 8 ∨ 72 < fd.password.length) →
      ∃ msg, handleSubmit fd = .rejected msg) ∧
    ((fd.password = fd.confirmPassword ∧ 8 ≤ fd.password.length ∧ fd.password.length ≤ 72) →
      handleSubmit fd = .submitted ⟨regFullName fd, fd.email, fd.password⟩) := by
  unfold handleSubmit
  constructor
  · intro h
    split_ifs with h1 h2 h3
    · exact ⟨_, rfl⟩
    · exact ⟨_, rfl⟩
    · exact ⟨_, rfl⟩
    · exfalso
      rcases h with h | h | h
      · exact h1 h
      · omega
      · omega
  · rintro ⟨hEq, hMin, hMax⟩
    split_ifs with h1 h2 h3
    · exact absurd hEq h1
    · omega
    · omega
    · rfl

/-- Claim C9 witness: a mismatched short password is rejected, a matching
11-character password is submitted. -/
theorem registration_validation_witness :
    (∃ msg, handleSubmit ⟨"Ana", "García", "ana@mail.com", "corta", "corta"⟩ = .rejected msg) ∧
    handleSubmit ⟨"Ana", "García", "ana@mail.com", "password123", "password123"⟩ =
      .submitted ⟨regFullName ⟨"Ana", "García", "ana@mail.com", "password123", "password123"⟩,
        "ana@mail.com", "password123"⟩ := by
  constructor
  · exact (registration_validation _).1 (Or.inr (Or.inl (by decide)))
  · exact (registration_validation _).2 ⟨rfl, by decide, by decide⟩

/-- Claim C5 counterexample: the assistant's content preview is cut at the
fixed position 200 even inside a word — on a 201-character single word the
output is truncated although characters 199 and 200 are both non-whitespace,
refuting the claim that the cut is never mid-word. -/
theorem truncate_midword_counterexample :
    truncatePreview (List.replicate 201 'x') ≠ List.replicate 201 'x' ∧
    cutsMidWord (List.replicate 201 'x') = true := by
  constructor
  · set_option maxRecDepth 8192 in decide
  · set_option maxRecDepth 8192 in decide

/-- Claim C5 (amended): the content preview is truncated to a fixed maximum
length — the first 200 characters, with an ellipsis appended when the content
is longer — at a fixed character position that can fall in the middle of a
word; content of at most 200 characters is kept verbatim. -/
theorem truncate_fixed_cut (content : List Char) :
    (truncatePreview content).length ≤ 203 ∧
    (truncatePreview content).take 200 = content.take 200 ∧
    (content.length ≤ 200 → truncatePreview content = content) := by
  unfold truncatePreview
  by_cases h : 200 < content.length
  · rw [if_pos h]
    refine ⟨?_, ?_, ?_⟩
    · simp only [List.length_append, List.length_take, List.length_cons, List.length_nil]
      omega
    · rw [List.take_append_eq_append_take]
      simp only [List.take_take, List.length_take]
      have : 200 - min 200 content.length = 0 := by omega
      simp [this]
    · intro hle
      omega
  · rw [if_neg h]
    exact ⟨by omega, rfl, fun _ => rfl⟩

/-- Claim C5 (amended) witness: a short content string is kept verbatim and
the general bounds hold for it. -/
theorem truncate_fixed_cut_witness :
    (truncatePreview "hola que tal".toList).length ≤ 203 ∧
    (truncatePreview "hola que tal".toList).take 200 = "hola que tal".toList.take 200 ∧
    truncatePreview "hola que tal".toList = "hola que tal".toList := by
  have h := truncate_fixed_cut "hola que tal".toList
  exact ⟨h.1, h.2.1, h.2.2 (by decide)⟩

/-- Claim C3: an upload whose size exceeds 5 MB or whose declared type is
outside the PDF/DOC/DOCX set is rejected — the file-select handler records an
error and keeps the previous selection, and the modelled `submit` fails with
a `ValidationError` leaving the store untouched, so no Document record is
created. -/
theorem upload_validation (s : UploadPanelState) (f : FileInfo) (db : DB)
    (docId owner : Nat) (filename : String) (uploadedAt : Nat)
    (h : 5 * 1024 * 1024 < f.size ∨ allowedTypes.contains f.type = false) :
    (handleFileSelect s (some f)).uploadError.isSome = true ∧
    (handleFileSelect s (some f)).selectedFile = s.selectedFile ∧
    submit uploadConfig db docId owner filename f.type f.size uploadedAt = .error .validation ∧
    applyOp db (.submitOp docId owner filename f.type f.size uploadedAt) = db := by
  have hface : handleFileSelect s (some f) =
      if ¬ allowedTypes.contains f.type then
        { s with uploadError := some "Tipo de archivo no válido. Solo se permiten PDF, DOC y DOCX." }
      else if 5 * 1024 * 1024 < f.size then
        { s with uploadError := some "El archivo es demasiado grande. El tamaño máximo es 5MB." }
      else { selectedFile := some f, uploadError := none, uploadSuccess := false } := rfl
  have hsubeq : submit uploadConfig db docId owner filename f.type f.size uploadedAt =
      if ¬ allowedTypes.contains f.type then .error .validation
      else if 5 * 1024 * 1024 < f.size then .error .validation
      else
        match db.docs docId with
        | some _ => .ok db
        | none => .ok (setDoc db docId ⟨owner, .received, filename, uploadedAt, 0⟩) := rfl
  have happly : applyOp db (.submitOp docId owner filename f.type f.size uploadedAt) =
      match submit uploadConfig db docId owner filename f.type f.size uploadedAt with
      | .ok db2 => db2
      | .error _ => db := rfl
  by_cases ht : allowedTypes.contains f.type
  · have hs : 5 * 1024 * 1024 < f.size := by
      rcases h with h | h
      · exact h
      · rw [ht] at h
        cases h
    have hsub : submit uploadConfig db docId owner filename f.type f.size uploadedAt
        = .error .validation := by
      rw [hsubeq, if_neg (fun hn => hn ht), if_pos hs]
    refine ⟨?_, ?_, hsub, ?_⟩
    · rw [hface, if_neg (fun hn => hn ht), if_pos hs]
      rfl
    · rw [hface, if_neg (fun hn => hn ht), if_pos hs]
    · rw [happly, hsub]
  · have hsub : submit uploadConfig db docId owner filename f.type f.size uploadedAt
        = .error .validation := by
      rw [hsubeq, if_pos ht]
    refine ⟨?_, ?_, hsub, ?_⟩
    · rw [hface, if_pos ht]
      rfl
    · rw [hface, if_pos ht]
    · rw [happly, hsub]

/-- Claim C3 witness: a 10 MB PDF upload attempt is rejected by the client
handler and by the modelled `submit`, and the empty store stays empty. -/
theorem upload_validation_witness :
    (handleFileSelect ⟨none, none, false⟩ (some ⟨"application/pdf", 10 * 1024 * 1024⟩)).uploadError.isSome = true ∧
    (handleFileSelect ⟨none, none, false⟩ (some ⟨"application/pdf", 10 * 1024 * 1024⟩)).selectedFile = none ∧
    submit uploadConfig dbInit 1 7 "cv.pdf" "application/pdf" (10 * 1024 * 1024) 100 = .error .validation ∧
    applyOp dbInit (.submitOp 1 7 "cv.pdf" "application/pdf" (10 * 1024 * 1024) 100) = dbInit := by
  exact upload_validation ⟨none, none, false⟩ ⟨"application/pdf", 10 * 1024 * 1024⟩ dbInit
    1 7 "cv.pdf" 100 (Or.inl (by decide))

/-- Claim C10: for every list of search results and every profile object
(present or absent), `generateRAGBasedRecommendations` returns a non-empty
list of at most 4 recommendations; the general fallback is used exactly when
no specific rule matches, and the sorted list is truncated to 4 entries. -/
theorem rag_recommendations_bounds (ragResults : List RagResult) (profile : Option ProfileData) :
    1 ≤ (generateRAGBasedRecommendations ragResults profile).length ∧
    (generateRAGBasedRecommendations ragResults profile).length ≤ 4 ∧
    (ruleRecommendations (allContentOf ragResults) = [] →
      generateRAGBasedRecommendations ragResults profile = [generalImprovementRec]) := by
  unfold generateRAGBasedRecommendations
  refine ⟨?_, ?_, ?_⟩
  · rw [List.length_take, length_sortBy]
    by_cases hb : (ruleRecommendations (allContentOf ragResults)).isEmpty
    · simp [hb]
    · rw [if_neg hb]
      have : ruleRecommendations (allContentOf ragResults) ≠ [] := by
        intro hnil
        rw [hnil] at hb
        exact hb rfl
      have hpos : 0 < (ruleRecommendations (allContentOf ragResults)).length :=
        List.length_pos.mpr this
      omega
  · rw [List.length_take]
    omega
  · intro hnil
    show List.take 4 (sortBy recLE
        (if (ruleRecommendations (allContentOf ragResults)).isEmpty then
          [generalImprovementRec]
        else ruleRecommendations (allContentOf ragResults))) = [generalImprovementRec]
    rw [hnil]
    rfl

/-- Claim C10 witness: a concrete result set satisfying every rule's negation
yields exactly the fallback recommendation, within the 1–4 bounds. -/
theorem rag_recommendations_bounds_witness :
    1 ≤ (generateRAGBasedRecommendations
          [⟨some "2 años certificate english github team", none⟩] none).length ∧
    (generateRAGBasedRecommendations
          [⟨some "2 años certificate english github team", none⟩] none).length ≤ 4 ∧
    generateRAGBasedRecommendations
          [⟨some "2 años certificate english github team", none⟩] none
        = [generalImprovementRec] := by
  have h := rag_recommendations_bounds [⟨some "2 años certificate english github team", none⟩] none
  exact ⟨h.1, h.2.1, h.2.2 (by decide)⟩

/-- Decomposition of a search hit: any returned result is built from a stored
chunk that passed the owner/status eligibility filter and the score
threshold, and carries that chunk's similarity score. -/
theorem searchStore_spec (db : DB) (owner : Nat) (qv : List Int) (limit : Nat) (ms : Score)
    (r : SearchResult) (hr : r ∈ searchStore db owner qv limit ms) :
    r.chunk ∈ db.chunks ∧ eligible db owner r.chunk = true ∧
    Score.le ms r.score = true ∧ r.score = simScore qv r.chunk.vec := by
  unfold searchStore at hr
  have hr2 := List.take_subset _ _ hr
  rw [mem_sortBy, List.mem_filter] at hr2
  obtain ⟨hrm, hscore⟩ := hr2
  rw [List.mem_map] at hrm
  obtain ⟨c, hc, hrc⟩ := hrm
  rw [List.mem_filter] at hc
  obtain ⟨hcm, helig⟩ := hc
  subst hrc
  exact ⟨hcm, helig, hscore, rfl⟩

/-- A small concrete store: owner 7 has one indexed document with one chunk. -/
def dbDemo : DB :=
  { docs := fun j => if j = 1 then some ⟨7, .indexed, "cv.pdf", 100, 1⟩ else none
  , chunks := [⟨1, 0, "python developer", embed "python developer"⟩] }

/-- The result the demo search returns for the matching query. -/
def demoResult : SearchResult :=
  { chunk := ⟨1, 0, "python developer", embed "python developer"⟩
  , filename := "cv.pdf"
  , uploadedAt := 100
  , score := ⟨1, 1⟩ }

/-- Claim C1: a search scoped to owner `A` only returns results whose
originating Document exists and belongs to `A` — hence never to a distinct
owner `B`; and the search client always addresses the owner-scoped endpoint
with the authenticated user's own identifier. -/
theorem search_owner_isolation :
    (∀ (db : DB) (A B : Nat) (qv : List Int) (limit : Nat) (ms : Score) (r : SearchResult),
      A ≠ B → r ∈ searchStore db A qv limit ms →
      ∃ d, db.docs r.chunk.docId = some d ∧ d.owner = A ∧ d.owner ≠ B) ∧
    (∀ (userId : Option Nat) (msg : String) (call : ClientSearchCall),
      buildSearchCall userId msg = some call →
      userId = some call.ownerId ∧ call.path = ragSearchUserPath call.ownerId) := by
  constructor
  · intro db A B qv limit ms r hAB hr
    obtain ⟨-, helig, -, -⟩ := searchStore_spec db A qv limit ms r hr
    unfold eligible at helig
    cases hd : db.docs r.chunk.docId with
    | none => rw [hd] at helig; cases helig
    | some d =>
      rw [hd] at helig
      simp only [Bool.and_eq_true, beq_iff_eq] at helig
      exact ⟨d, rfl, helig.1, by rw [helig.1]; exact hAB⟩
  · intro userId msg call hcall
    cases userId with
    | none => cases hcall
    | some uid =>
      have : call = ⟨ragSearchUserPath uid, uid, ⟨msg, 5, 3⟩⟩ := by
        injection hcall with h
        exact h.symm
      subst this
      exact ⟨rfl, rfl⟩

/-- Claim C1 witness: in the demo store, searching as owner 7 returns a result
whose document belongs to 7 and not to owner 9; and a concrete client call for
user 7 targets its own endpoint. -/
theorem search_owner_isolation_witness :
    (∃ d, dbDemo.docs demoResult.chunk.docId = some d ∧ d.owner = 7 ∧ d.owner ≠ 9) ∧
    (some 7 = some (ClientSearchCall.ownerId ⟨ragSearchUserPath 7, 7, ⟨"hola", 5, 3⟩⟩) ∧
      ClientSearchCall.path ⟨ragSearchUserPath 7, 7, ⟨"hola", 5, 3⟩⟩ =
        ragSearchUserPath (ClientSearchCall.ownerId ⟨ragSearchUserPath 7, 7, ⟨"hola", 5, 3⟩⟩)) := by
  constructor
  · exact search_owner_isolation.1 dbDemo 7 9 (embed "python developer") 5 ⟨3, 10⟩ demoResult
      (by decide) (by decide)
  · exact search_owner_isolation.2 (some 7) "hola" _ rfl

/-- Claim C4: every returned search result has similarity score at least
`min_score`; when no eligible chunk clears the threshold the retriever
returns `ok []`; the retriever never returns an error; and the client's
empty-results reply is a non-error message. -/
theorem search_threshold :
    (∀ (db : DB) (owner : Nat) (qv : List Int) (limit : Nat) (ms : Score) (r : SearchResult),
      r ∈ searchStore db owner qv limit ms → Score.le ms r.score = true) ∧
    (∀ (db : DB) (owner : Nat) (q : String) (limit : Nat) (ms : Score),
      (∀ c ∈ db.chunks, eligible db owner c = true →
        Score.le ms (simScore (embed q) c.vec) = false) →
      retrieverSearch db owner q limit ms = .ok []) ∧
    (∀ (db : DB) (owner : Nat) (q : String) (limit : Nat) (ms : Score),
      ∃ l, retrieverSearch db owner q limit ms = .ok l) ∧
    emptyResultsReply.isError = false := by
  refine ⟨?_, ?_, ?_, rfl⟩
  · intro db owner qv limit ms r hr
    exact (searchStore_spec db owner qv limit ms r hr).2.2.1
  · intro db owner q limit ms hlow
    unfold retrieverSearch
    congr 1
    have hnil : ((db.chunks.filter (eligible db owner)).map
        (fun c =>
          ({ chunk := c
           , filename := (match db.docs c.docId with | some d => d.filename | none => "")
           , uploadedAt := (match db.docs c.docId with | some d => d.uploadedAt | none => 0)
           , score := simScore (embed q) c.vec } : SearchResult))).filter
            (fun r => Score.le ms r.score) = [] := by
      rw [List.filter_eq_nil_iff]
      intro r hrm
      rw [List.mem_map] at hrm
      obtain ⟨c, hc, hrc⟩ := hrm
      rw [List.mem_filter] at hc
      subst hrc
      simp only [Bool.not_eq_true]
      exact hlow c hc.1 hc.2
    show List.take limit (sortBy resultLE
      (((db.chunks.filter (eligible db owner)).map
        (fun c =>
          ({ chunk := c
           , filename := (match db.docs c.docId with | some d => d.filename | none => "")
           , uploadedAt := (match db.docs c.docId with | some d => d.uploadedAt | none => 0)
           , score := simScore (embed q) c.vec } : SearchResult))).filter
            (fun r => Score.le ms r.score))) = []
    rw [hnil]
    cases limit <;> rfl
  · intro db owner q limit ms
    exact ⟨_, rfl⟩

/-- Claim C4 witness: the demo result clears the 0.3 threshold; a query whose
best score is below 1 yields `ok []` under a threshold of 1; and a retriever
call returns `ok`. -/
theorem search_threshold_witness :
    Score.le ⟨3, 10⟩ demoResult.score = true ∧
    retrieverSearch dbDemo 7 "consulta irrelevante" 5 ⟨1, 1⟩ = .ok [] ∧
    (∃ l, retrieverSearch dbDemo 7 "hola" 5 ⟨3, 10⟩ = .ok l) ∧
    emptyResultsReply.isError = false := by
  refine ⟨?_, ?_, ?_, search_threshold.2.2.2⟩
  · exact search_threshold.1 dbDemo 7 (embed "python developer") 5 ⟨3, 10⟩ demoResult (by decide)
  · exact search_threshold.2.1 dbDemo 7 "consulta irrelevante" 5 ⟨1, 1⟩ (by decide)
  · exact search_threshold.2.2.1 dbDemo 7 "hola" 5 ⟨3, 10⟩

/-- A run of characters satisfying `P` that occurs as a prefix of `a ++ m :: b`
with `P m` false lies entirely within `a`. -/
theorem noSpanPre {P : Char → Bool} (m : Char) (hm : P m = false) :
    ∀ (s a b : List Char), (∀ c ∈ s, P c = true) → s <+: (a ++ m :: b) → s <+: a := by
  intro s
  induction s with
  | nil =>
    intro a b _ _
    exact ⟨a, rfl⟩
  | cons c s2 ih =>
    intro a b hP hpre
    obtain ⟨t, ht⟩ := hpre
    cases a with
    | nil =>
      simp only [List.nil_append, List.cons_append] at ht
      injection ht with h1 h2
      have hc := hP c (List.mem_cons_self c s2)
      rw [h1, hm] at hc
      cases hc
    | cons x a2 =>
      simp only [List.cons_append] at ht
      injection ht with h1 h2
      subst h1
      have hs2 : s2 <+: (a2 ++ m :: b) := ⟨t, h2⟩
      obtain ⟨t2, ht2⟩ := ih a2 b (fun d hd => hP d (List.mem_cons_of_mem _ hd)) hs2
      exact ⟨t2, by rw [List.cons_append, ht2]⟩

/-- A contiguous run of characters satisfying `P` inside `a ++ m :: b` cannot
span the blocking character `m`: it lies within `a` or within `b`. -/
theorem noSpanMid {P : Char → Bool} (m : Char) (hm : P m = false) (s b : List Char)
    (hP : ∀ c ∈ s, P c = true) :
    ∀ (a : List Char), s <:+: (a ++ m :: b) → s <:+: a ∨ s <:+: b := by
  intro a
  induction a with
  | nil =>
    intro h
    obtain ⟨p, q, hpq⟩ := h
    rw [List.nil_append] at hpq
    cases p with
    | nil =>
      rw [List.nil_append] at hpq
      cases s with
      | nil => exact Or.inl ⟨[], [], rfl⟩
      | cons c s2 =>
        rw [List.cons_append] at hpq
        injection hpq with h1 h2
        have hc := hP c (List.mem_cons_self c s2)
        rw [h1, hm] at hc
        cases hc
    | cons y p2 =>
      simp only [List.cons_append, List.append_assoc] at hpq
      injection hpq with h1 h2
      exact Or.inr ⟨p2, q, by rw [List.append_assoc]; exact h2⟩
  | cons x a2 ih =>
    intro h
    obtain ⟨p, q, hpq⟩ := h
    simp only [List.cons_append] at hpq
    cases p with
    | nil =>
      rw [List.nil_append] at hpq
      cases s with
      | nil => exact Or.inl ⟨[], x :: a2, rfl⟩
      | cons c s2 =>
        rw [List.cons_append] at hpq
        injection hpq with h1 h2
        subst h1
        have hs2 : s2 <+: (a2 ++ m :: b) := ⟨q, h2⟩
        obtain ⟨t2, ht2⟩ :=
          noSpanPre m hm s2 a2 b (fun d hd => hP d (List.mem_cons_of_mem _ hd)) hs2
        exact Or.inl ⟨[], t2, by
          simp only [List.nil_append, List.cons_append]
          rw [ht2]⟩
    | cons y p2 =>
      simp only [List.cons_append, List.append_assoc] at hpq
      injection hpq with h1 h2
      have hsub : s <:+: (a2 ++ m :: b) := ⟨p2, q, by rw [List.append_assoc]; exact h2⟩
      rcases ih hsub with h3 | h3
      · obtain ⟨u, v, huv⟩ := h3
        exact Or.inl ⟨x :: u, v, by
          simp only [List.cons_append, List.append_assoc]
          simp only [← List.append_assoc]
          rw [huv]⟩
      · exact Or.inr h3

/-- A nonempty run of `P`-characters inside `a ++ b` where every character of
`a` fails `P` lies entirely within `b`. -/
theorem noSpanLeft {P : Char → Bool} (s : List Char) (hP : ∀ c ∈ s, P c = true) :
    ∀ (a b : List Char), (∀ c ∈ a, P c = false) → s <:+: (a ++ b) → s <:+: b := by
  intro a
  induction a with
  | nil =>
    intro b _ h
    rwa [List.nil_append] at h
  | cons m a2 ih =>
    intro b ha h
    rw [List.cons_append] at h
    have hsplit := noSpanMid m (ha m (List.mem_cons_self m a2)) s (a2 ++ b) hP []
      (by rwa [List.nil_append])
    rcases hsplit with h1 | h1
    · obtain ⟨p, q, hpq⟩ := h1
      simp only [List.append_eq_nil] at hpq
      rw [hpq.1.2]
      exact ⟨[], b, rfl⟩
    · exact ih b (fun d hd => ha d (List.mem_cons_of_mem _ hd)) h1

/-- A contiguous piece of a text has at most as many digits as the text. -/
theorem digitCount_le (s l : List Char) (h : s <:+: l) :
    (s.filter Char.isDigit).length ≤ (l.filter Char.isDigit).length := by
  obtain ⟨p, q, rfl⟩ := h
  rw [List.filter_append, List.filter_append, List.length_append, List.length_append]
  omega

/-- A run of `P`-characters inside a text of characters all failing `P` is
empty. -/
theorem nilOfSpanBlocked {P : Char → Bool} (s block : List Char)
    (hP : ∀ c ∈ s, P c = true) (hblock : ∀ c ∈ block, P c = false)
    (hs : s <:+: block) : s = [] := by
  have h2 : s <:+: ([] : List Char) := by
    apply noSpanLeft s hP block [] hblock
    rwa [List.append_nil]
  obtain ⟨p, q, hpq⟩ := h2
  simp only [List.append_eq_nil] at hpq
  exact hpq.1.2

/-- The email pass output never contains an `@`: every token holding one is
replaced by the (at-free) placeholder. -/
theorem noAt_emailAux : ∀ (l tok : List Char), '@' ∉ emailAux tok l := by
  intro l
  induction l with
  | nil =>
    intro tok
    show '@' ∉ emailEmit tok
    unfold emailEmit
    by_cases h : '@' ∈ tok
    · rw [if_pos h]
      decide
    · rw [if_neg h]
      exact h
  | cons c cs ih =>
    intro tok
    show '@' ∉ (if c.isWhitespace then emailEmit tok ++ c :: emailAux [] cs
      else emailAux (tok ++ [c]) cs)
    by_cases hw : c.isWhitespace
    · rw [if_pos hw]
      intro hmem
      rw [List.mem_append, List.mem_cons] at hmem
      rcases hmem with h1 | h2 | h3
      · revert h1
        unfold emailEmit
        by_cases h : '@' ∈ tok
        · rw [if_pos h]
          decide
        · rw [if_neg h]
          exact h
      · rw [← h2] at hw
        exact absurd hw (by decide)
      · exact ih [] h3
    · rw [if_neg hw]
      exact ih (tok ++ [c])

/-- The phone pass introduces no `@`: its output consists of kept input
characters and the at-free phone placeholder. -/
theorem noAt_phoneAux : ∀ (l run : List Char), '@' ∉ l → '@' ∉ run → '@' ∉ phoneAux run l := by
  intro l
  induction l with
  | nil =>
    intro run _ hrun
    show '@' ∉ phoneEmit run
    unfold phoneEmit
    by_cases h7 : 7 ≤ (run.filter Char.isDigit).length
    · rw [if_pos h7]
      decide
    · rw [if_neg h7]
      exact hrun
  | cons c cs ih =>
    intro run hl hrun
    have hlc : '@' ∉ cs := fun hx => hl (List.mem_cons_of_mem _ hx)
    have hcne : c ≠ '@' := fun he => hl (he ▸ List.mem_cons_self c cs)
    show '@' ∉ (if isPhoneChar c then phoneAux (run ++ [c]) cs
      else phoneEmit run ++ c :: phoneAux [] cs)
    by_cases hc : isPhoneChar c
    · rw [if_pos hc]
      apply ih (run ++ [c]) hlc
      intro hx
      rw [List.mem_append, List.mem_singleton] at hx
      rcases hx with hx | hx
      · exact hrun hx
      · exact hcne hx.symm
    · rw [if_neg hc]
      intro hmem
      rw [List.mem_append, List.mem_cons] at hmem
      rcases hmem with h1 | h2 | h3
      · revert h1
        unfold phoneEmit
        by_cases h7 : 7 ≤ (run.filter Char.isDigit).length
        · rw [if_pos h7]
          decide
        · rw [if_neg h7]
          exact hrun
      · exact hcne h2.symm
      · exact ih [] hlc (List.not_mem_nil '@') h3

/-- Core phone redaction bound: any contiguous piece of the phone pass output
consisting solely of phone-alphabet characters holds at most six digits —
every maximal run with seven or more digits was replaced by the placeholder,
whose characters are outside the phone alphabet. -/
theorem phoneAux_ok : ∀ (l run s : List Char),
    s <:+: phoneAux run l → (∀ c ∈ s, isPhoneChar c = true) →
    (s.filter Char.isDigit).length ≤ 6 := by
  intro l
  induction l with
  | nil =>
    intro run s hs hP
    rw [show phoneAux run [] = phoneEmit run from rfl] at hs
    unfold phoneEmit at hs
    by_cases h7 : 7 ≤ (run.filter Char.isDigit).length
    · rw [if_pos h7] at hs
      rw [nilOfSpanBlocked s phonePlaceholder hP (by decide) hs]
      simp
    · rw [if_neg h7] at hs
      have := digitCount_le s run hs
      omega
  | cons c cs ih =>
    intro run s hs hP
    rw [show phoneAux run (c :: cs) =
      (if isPhoneChar c then phoneAux (run ++ [c]) cs
       else phoneEmit run ++ c :: phoneAux [] cs) from rfl] at hs
    by_cases hc : isPhoneChar c
    · rw [if_pos hc] at hs
      exact ih (run ++ [c]) s hs hP
    · rw [if_neg hc] at hs
      have hcf : isPhoneChar c = false := by
        revert hc
        cases isPhoneChar c <;> simp
      rcases noSpanMid c hcf s (phoneAux [] cs) hP (phoneEmit run) hs with h1 | h1
      · unfold phoneEmit at h1
        by_cases h7 : 7 ≤ (run.filter Char.isDigit).length
        · rw [if_pos h7] at h1
          rw [nilOfSpanBlocked s phonePlaceholder hP (by decide) h1]
          simp
        · rw [if_neg h7] at h1
          have := digitCount_le s run h1
          omega
      · exact ih [] s h1 hP

/-- Claim C2: for every input text `t` and every email-shaped or phone-shaped
substring `s` occurring in `t` — including spans crossing whitespace, such as
`+34 600 11 22 33`, or embedded in larger tokens — the anonymizer output for
`t` does not contain `s` verbatim, whatever the entity layer does and whether
or not it is available.  (The proof shows more: no email- or phone-shaped
substring occurs in the output at all.) -/
theorem anonymizer_redaction (entityAvailable : Bool) (entity : List Char → List Char)
    (t s : List Char) (hocc : s <:+: t)
    (hshape : IsEmailShaped s ∨ IsPhoneShaped s) :
    ¬ s <:+: anonymize entityAvailable entity t := by
  intro hout
  unfold anonymize phonePass emailPass at hout
  rcases hshape with ⟨hat, -⟩ | ⟨h7, hP⟩
  · have hmem : '@' ∈ phoneAux []
        (emailAux [] (if entityAvailable then entity t else t)) := by
      obtain ⟨p, q, hpq⟩ := hout
      rw [← hpq, List.mem_append, List.mem_append]
      exact Or.inl (Or.inr hat)
    exact noAt_phoneAux _ [] (noAt_emailAux _ []) (List.not_mem_nil '@') hmem
  · have h6 := phoneAux_ok _ [] s hout hP
    omega

/-- Claim C2 witness: the spec's scenario-1 phone number, occurring with its
internal spaces in a concrete text, is absent from the degraded-mode
(pattern-only) anonymizer output. -/
theorem anonymizer_redaction_witness :
    ¬ ("+34 600 11 22 33".toList <:+:
      anonymize false (fun x => x) "Llámame al +34 600 11 22 33 hoy".toList) := by
  exact anonymizer_redaction false (fun x => x)
    "Llámame al +34 600 11 22 33 hoy".toList "+34 600 11 22 33".toList
    ⟨"Llámame al ".toList, " hoy".toList, by decide⟩
    (Or.inr (by constructor <;> decide))

/-- Claim C8: embedding is a fixed-dimension deterministic function — equal
chunk texts yield equal vectors of dimension `embeddingDim` — and therefore
re-indexing a Document with unchanged text is idempotent on the chunk store. -/
theorem embedding_deterministic :
    (∀ t : String, (embed t).length = embeddingDim) ∧
    (∀ t₁ t₂ : String, t₁ = t₂ → embed t₁ = embed t₂) ∧
    (∀ (db : DB) (docId : Nat) (text : String),
      reindexDocument (reindexDocument db docId text) docId text =
        reindexDocument db docId text) := by
  refine ⟨?_, ?_, ?_⟩
  · intro t
    unfold embed
    rw [List.length_map, List.length_range]
  · intro t₁ t₂ h
    rw [h]
  · intro db docId text
    obtain ⟨docs, chunks⟩ := db
    unfold reindexDocument
    simp only [DB.mk.injEq, true_and]
    rw [List.filter_append, List.filter_filter]
    have h2 : List.filter (fun c => !(c.docId == docId))
        ((indexChunkData text).enum.map
          (fun p => (⟨docId, p.1, p.2.1, p.2.2⟩ : Chunk))) = [] := by
      rw [List.filter_eq_nil_iff]
      intro c hc
      rw [List.mem_map] at hc
      obtain ⟨p, -, hp⟩ := hc
      subst hp
      simp
    have h1 : List.filter (fun c => !(c.docId == docId) && !(c.docId == docId)) chunks =
        List.filter (fun c => !(c.docId == docId)) chunks := by
      apply List.filter_congr
      intro c _
      rw [Bool.and_self]
    rw [h1, h2, List.append_nil]

/-- Claim C8 witness: a concrete chunk text embeds to a vector of the fixed
dimension, embedding it twice agrees, and re-indexing the empty store twice
with the same text equals re-indexing it once. -/
theorem embedding_deterministic_witness :
    (embed "python developer").length = embeddingDim ∧
    embed "python developer" = embed "python developer" ∧
    reindexDocument (reindexDocument dbInit 1 "hola") 1 "hola" =
      reindexDocument dbInit 1 "hola" := by
  exact ⟨embedding_deterministic.1 "python developer",
    embedding_deterministic.2.1 "python developer" "python developer" rfl,
    embedding_deterministic.2.2 dbInit 1 "hola"⟩

/- ### Chunk-count bookkeeping lemmas -/

/-- Chunk count distributes over list append. -/
theorem countChunks_append (l l2 : List Chunk) (j : Nat) :
    (List.filter (fun c => c.docId == j) (l ++ l2)).length =
      (List.filter (fun c => c.docId == j) l).length +
      (List.filter (fun c => c.docId == j) l2).length := by
  rw [List.filter_append, List.length_append]

/-- Every chunk built for `docId` is counted for `docId`. -/
theorem countChunks_new_self (docId : Nat) (cd : List (String × List Int)) :
    (List.filter (fun c => c.docId == docId)
      (cd.enum.map (fun p => (⟨docId, p.1, p.2.1, p.2.2⟩ : Chunk)))).length = cd.length := by
  have hall : List.filter (fun c => c.docId == docId)
      (cd.enum.map (fun p => (⟨docId, p.1, p.2.1, p.2.2⟩ : Chunk))) =
      cd.enum.map (fun p => (⟨docId, p.1, p.2.1, p.2.2⟩ : Chunk)) := by
    rw [List.filter_eq_self]
    intro c hc
    rw [List.mem_map] at hc
    obtain ⟨p, -, hp⟩ := hc
    subst hp
    simp
  rw [hall, List.length_map, List.enum_length]

/-- No chunk built for `docId` is counted for a different document `j`. -/
theorem countChunks_new_other (docId j : Nat) (hj : j ≠ docId) (cd : List (String × List Int)) :
    (List.filter (fun c => c.docId == j)
      (cd.enum.map (fun p => (⟨docId, p.1, p.2.1, p.2.2⟩ : Chunk)))).length = 0 := by
  have hnil : List.filter (fun c => c.docId == j)
      (cd.enum.map (fun p => (⟨docId, p.1, p.2.1, p.2.2⟩ : Chunk))) = [] := by
    rw [List.filter_eq_nil_iff]
    intro c hc
    rw [List.mem_map] at hc
    obtain ⟨p, -, hp⟩ := hc
    subst hp
    simp only [beq_iff_eq]
    exact fun h => hj h.symm
  rw [hnil]
  rfl

/-- Removing all of `id`'s chunks leaves zero chunks counted for `id`. -/
theorem countChunks_filter_self (l : List Chunk) (id : Nat) :
    (List.filter (fun c => c.docId == id)
      (l.filter (fun c => !(c.docId == id)))).length = 0 := by
  have hnil : List.filter (fun c => c.docId == id)
      (l.filter (fun c => !(c.docId == id))) = [] := by
    rw [List.filter_eq_nil_iff]
    intro c hc
    rw [List.mem_filter] at hc
    simp only [Bool.not_eq_true'] at hc
    simp [hc.2]
  rw [hnil]
  rfl

/-- Removing all of `id`'s chunks does not change the count of a different
document `j`. -/
theorem countChunks_filter_other (l : List Chunk) (id j : Nat) (hj : j ≠ id) :
    (List.filter (fun c => c.docId == j)
      (l.filter (fun c => !(c.docId == id)))).length =
      (List.filter (fun c => c.docId == j) l).length := by
  rw [List.filter_filter]
  congr 1
  apply List.filter_congr
  intro c _
  cases hc : (c.docId == j) with
  | false => rfl
  | true =>
    have hcj : c.docId = j := by rwa [beq_iff_eq] at hc
    rw [Bool.true_and]
    simp only [Bool.not_eq_true', beq_eq_false_iff_ne]
    rw [hcj]
    exact hj

/- ### The Document/Chunk consistency invariant (Claims C6, C7) -/

/-- The store consistency invariant: an absent Document owns no chunks; an
`indexed` Document owns exactly the chunks produced for it, at least one; a
Document in any other state owns none. -/
def DocChunkInv (db : DB) : Prop :=
  (∀ id, db.docs id = none → chunkCount db id = 0) ∧
  (∀ id d, db.docs id = some d →
    (d.status = DocStatus.indexed → chunkCount db id = d.produced ∧ 1 ≤ d.produced) ∧
    (d.status ≠ DocStatus.indexed → chunkCount db id = 0))

/-- The empty store satisfies the invariant. -/
theorem docChunkInv_init : DocChunkInv dbInit := by
  constructor
  · intro id _
    rfl
  · intro id d h
    cases h

/-- Overwriting a non-`indexed` Document record with another non-`indexed`
record preserves the invariant (the chunk store is untouched). -/
theorem docChunkInv_setDoc (db : DB) (id : Nat) (d e : DocRec)
    (hd : db.docs id = some d) (hdold : d.status ≠ DocStatus.indexed)
    (he : e.status ≠ DocStatus.indexed)
    (h : DocChunkInv db) : DocChunkInv (setDoc db id e) := by
  constructor
  · intro j hj
    have hj2 : db.docs j = none := by
      by_cases hji : j = id
      · exfalso
        rw [show (setDoc db id e).docs j = if j = id then some e else db.docs j from rfl,
          if_pos hji] at hj
        cases hj
      · rw [show (setDoc db id e).docs j = if j = id then some e else db.docs j from rfl,
          if_neg hji] at hj
        exact hj
    exact h.1 j hj2
  · intro j f hjf
    by_cases hji : j = id
    · subst hji
      rw [show (setDoc db j e).docs j = if j = j then some e else db.docs j from rfl,
        if_pos rfl] at hjf
      injection hjf with hf
      subst hf
      refine ⟨fun hidx => absurd hidx he, fun _ => ?_⟩
      exact (h.2 j d hd).2 hdold
    · rw [show (setDoc db id e).docs j = if j = id then some e else db.docs j from rfl,
        if_neg hji] at hjf
      exact h.2 j f hjf

/-- A pure status compare-and-set between two non-`indexed` states preserves
the invariant. -/
theorem docChunkInv_casStatus (db : DB) (id : Nat) (was nxt : DocStatus)
    (hw : was ≠ DocStatus.indexed) (hn : nxt ≠ DocStatus.indexed)
    (h : DocChunkInv db) : DocChunkInv (casStatus db id was nxt) := by
  cases hd : db.docs id with
  | none =>
    have heq : casStatus db id was nxt = db := by
      unfold casStatus
      rw [hd]
    rw [heq]
    exact h
  | some d =>
    have heq : casStatus db id was nxt =
        if d.status = was then setDoc db id { d with status := nxt } else db := by
      unfold casStatus
      rw [hd]
    rw [heq]
    by_cases hst : d.status = was
    · rw [if_pos hst]
      exact docChunkInv_setDoc db id d { d with status := nxt } hd
        (by rw [hst]; exact hw) hn h
    · rw [if_neg hst]
      exact h

/-- `submit` preserves the invariant (it either rejects, refuses a duplicate
identifier, or creates a chunkless `received` Document). -/
theorem docChunkInv_submit (db : DB) (docId owner : Nat) (fn ct : String) (sz ts : Nat)
    (h : DocChunkInv db) :
    DocChunkInv (match submit uploadConfig db docId owner fn ct sz ts with
      | .ok db2 => db2
      | .error _ => db) := by
  unfold submit
  by_cases h1 : ¬ (uploadConfig.allowedContentTypes.contains ct)
  · rw [if_pos h1]
    exact h
  · rw [if_neg h1]
    by_cases h2 : uploadConfig.maxSizeBytes < sz
    · rw [if_pos h2]
      exact h
    · rw [if_neg h2]
      cases hd : db.docs docId with
      | some d => exact h
      | none =>
        constructor
        · intro j hj
          have hj2 : db.docs j = none := by
            by_cases hji : j = docId
            · exfalso
              rw [show (setDoc db docId ⟨owner, .received, fn, ts, 0⟩).docs j =
                if j = docId then some ⟨owner, .received, fn, ts, 0⟩ else db.docs j from rfl,
                if_pos hji] at hj
              cases hj
            · rw [show (setDoc db docId ⟨owner, .received, fn, ts, 0⟩).docs j =
                if j = docId then some ⟨owner, .received, fn, ts, 0⟩ else db.docs j from rfl,
                if_neg hji] at hj
              exact hj
          exact h.1 j hj2
        · intro j e hje
          by_cases hji : j = docId
          · subst hji
            rw [show (setDoc db j ⟨owner, .received, fn, ts, 0⟩).docs j =
              if j = j then some ⟨owner, .received, fn, ts, 0⟩ else db.docs j from rfl,
              if_pos rfl] at hje
            injection hje with he
            subst he
            constructor
            · intro hidx
              cases hidx
            · intro _
              exact h.1 j hd
          · rw [show (setDoc db docId ⟨owner, .received, fn, ts, 0⟩).docs j =
              if j = docId then some ⟨owner, .received, fn, ts, 0⟩ else db.docs j from rfl,
              if_neg hji] at hje
            exact h.2 j e hje

/-- `store` preserves the invariant: all chunks and the `indexed` status (with
its produced count) land atomically, an empty chunk list fails the Document,
and any other state is left untouched. -/
theorem docChunkInv_store (db : DB) (docId : Nat) (cd : List (String × List Int))
    (h : DocChunkInv db) : DocChunkInv (store db docId cd) := by
  cases hd : db.docs docId with
  | none =>
    have heq : store db docId cd = db := by
      unfold store
      rw [hd]
    rw [heq]
    exact h
  | some d =>
    have heq : store db docId cd =
        if d.status = DocStatus.anonymized then
          if cd.isEmpty then
            setDoc db docId { d with status := .failed }
          else
            { docs := fun j =>
                if j = docId then
                  some { d with status := .indexed, produced := cd.length }
                else db.docs j
            , chunks := db.chunks ++
                cd.enum.map (fun p => (⟨docId, p.1, p.2.1, p.2.2⟩ : Chunk)) }
        else db := by
      unfold store
      rw [hd]
    rw [heq]
    by_cases hst : d.status = DocStatus.anonymized
    · rw [if_pos hst]
      by_cases hcd : cd.isEmpty
      · rw [if_pos hcd]
        exact docChunkInv_setDoc db docId d { d with status := .failed } hd
          (by rw [hst]; decide) (fun hx => by cases hx) h
      · rw [if_neg hcd]
        have hcount0 : chunkCount db docId = 0 :=
          (h.2 docId d hd).2 (by rw [hst]; decide)
        have hlen : 1 ≤ cd.length := by
          cases cd with
          | nil => cases hcd rfl
          | cons a as => exact Nat.succ_le_succ (Nat.zero_le _)
        constructor
        · intro j hj
          by_cases hji : j = docId
          · exfalso
            rw [show ((⟨fun j2 =>
                if j2 = docId then some { d with status := .indexed, produced := cd.length }
                else db.docs j2,
                db.chunks ++ cd.enum.map (fun p => (⟨docId, p.1, p.2.1, p.2.2⟩ : Chunk))⟩ : DB)).docs j =
              if j = docId then some { d with status := .indexed, produced := cd.length }
              else db.docs j from rfl, if_pos hji] at hj
            cases hj
          · rw [show ((⟨fun j2 =>
                if j2 = docId then some { d with status := .indexed, produced := cd.length }
                else db.docs j2,
                db.chunks ++ cd.enum.map (fun p => (⟨docId, p.1, p.2.1, p.2.2⟩ : Chunk))⟩ : DB)).docs j =
              if j = docId then some { d with status := .indexed, produced := cd.length }
              else db.docs j from rfl, if_neg hji] at hj
            show (List.filter (fun c => c.docId == j)
              (db.chunks ++ cd.enum.map (fun p => (⟨docId, p.1, p.2.1, p.2.2⟩ : Chunk)))).length = 0
            rw [countChunks_append, countChunks_new_other docId j hji]
            have := h.1 j hj
            unfold chunkCount at this
            omega
        · intro j e hje
          by_cases hji : j = docId
          · subst hji
            rw [show ((⟨fun j2 =>
                if j2 = j then some { d with status := .indexed, produced := cd.length }
                else db.docs j2,
                db.chunks ++ cd.enum.map (fun p => (⟨j, p.1, p.2.1, p.2.2⟩ : Chunk))⟩ : DB)).docs j =
              if j = j then some { d with status := .indexed, produced := cd.length }
              else db.docs j from rfl, if_pos rfl] at hje
            injection hje with he
            subst he
            constructor
            · intro _
              constructor
              · show (List.filter (fun c => c.docId == j)
                  (db.chunks ++ cd.enum.map (fun p => (⟨j, p.1, p.2.1, p.2.2⟩ : Chunk)))).length =
                    cd.length
                rw [countChunks_append, countChunks_new_self]
                unfold chunkCount at hcount0
                omega
              · exact hlen
            · intro hnidx
              exact absurd rfl hnidx
          · rw [show ((⟨fun j2 =>
                if j2 = docId then some { d with status := .indexed, produced := cd.length }
                else db.docs j2,
                db.chunks ++ cd.enum.map (fun p => (⟨docId, p.1, p.2.1, p.2.2⟩ : Chunk))⟩ : DB)).docs j =
              if j = docId then some { d with status := .indexed, produced := cd.length }
              else db.docs j from rfl, if_neg hji] at hje
            have hj2 := h.2 j e hje
            have hcnt : (List.filter (fun c => c.docId == j)
                (db.chunks ++ cd.enum.map (fun p => (⟨docId, p.1, p.2.1, p.2.2⟩ : Chunk)))).length =
                chunkCount db j := by
              rw [countChunks_append, countChunks_new_other docId j hji]
              unfold chunkCount
              omega
            constructor
            · intro hidx
              have := hj2.1 hidx
              constructor
              · show (List.filter (fun c => c.docId == j)
                  (db.chunks ++ cd.enum.map (fun p => (⟨docId, p.1, p.2.1, p.2.2⟩ : Chunk)))).length =
                    e.produced
                rw [hcnt]
                exact this.1
              · exact this.2
            · intro hnidx
              show (List.filter (fun c => c.docId == j)
                (db.chunks ++ cd.enum.map (fun p => (⟨docId, p.1, p.2.1, p.2.2⟩ : Chunk)))).length = 0
              rw [hcnt]
              exact hj2.2 hnidx
    · rw [if_neg hst]
      exact h

/-- `deleteDocument` preserves the invariant: the cascade removes every chunk
of the document atomically with the `deleted` mark. -/
theorem docChunkInv_delete (db : DB) (owner docId : Nat) (h : DocChunkInv db) :
    DocChunkInv (match deleteDocument db owner docId with
      | .ok db2 => db2
      | .error _ => db) := by
  cases hd : db.docs docId with
  | none =>
    have heq : deleteDocument db owner docId = .error .notFound := by
      unfold deleteDocument
      simp only [hd]
    rw [heq]
    exact h
  | some d =>
    by_cases how : d.owner ≠ owner
    · have heq : deleteDocument db owner docId = .error .authorization := by
        unfold deleteDocument
        simp only [hd]
        rw [if_pos how]
      rw [heq]
      exact h
    · have heq : deleteDocument db owner docId =
          .ok { docs := fun j =>
                  if j = docId then some { d with status := .deleted } else db.docs j
              , chunks := db.chunks.filter (fun c => !(c.docId == docId)) } := by
        unfold deleteDocument
        simp only [hd]
        rw [if_neg how]
      simp only [heq]
      constructor
      · intro j hj
        have hj2 : (if j = docId then some { d with status := DocStatus.deleted }
            else db.docs j) = none := hj
        by_cases hji : j = docId
        · rw [if_pos hji] at hj2
          cases hj2
        · rw [if_neg hji] at hj2
          show (List.filter (fun c => c.docId == j)
            (db.chunks.filter (fun c => !(c.docId == docId)))).length = 0
          rw [countChunks_filter_other db.chunks docId j hji]
          exact h.1 j hj2
      · intro j e hje
        have hje2 : (if j = docId then some { d with status := DocStatus.deleted }
            else db.docs j) = some e := hje
        by_cases hji : j = docId
        · rw [if_pos hji] at hje2
          injection hje2 with he
          subst he
          subst hji
          refine ⟨fun hidx => ?_, fun _ => ?_⟩
          · cases hidx
          · exact countChunks_filter_self db.chunks j
        · rw [if_neg hji] at hje2
          have hj2 := h.2 j e hje2
          have hcnt : (List.filter (fun c => c.docId == j)
              (db.chunks.filter (fun c => !(c.docId == docId)))).length = chunkCount db j :=
            countChunks_filter_other db.chunks docId j hji
          refine ⟨fun hidx => ?_, fun hnidx => ?_⟩
          · have hp := hj2.1 hidx
            refine ⟨?_, hp.2⟩
            show (List.filter (fun c => c.docId == j)
              (db.chunks.filter (fun c => !(c.docId == docId)))).length = e.produced
            rw [hcnt]
            exact hp.1
          · show (List.filter (fun c => c.docId == j)
              (db.chunks.filter (fun c => !(c.docId == docId)))).length = 0
            rw [hcnt]
            exact hj2.2 hnidx

/-- Every pipeline operation preserves the Document/Chunk invariant. -/
theorem docChunkInv_applyOp (db : DB) (op : Op) (h : DocChunkInv db) :
    DocChunkInv (applyOp db op) := by
  cases op with
  | submitOp docId owner fn ct sz ts => exact docChunkInv_submit db docId owner fn ct sz ts h
  | validateOp docId =>
    exact docChunkInv_casStatus db docId .received .validated (by decide) (by decide) h
  | quarantineOp docId =>
    exact docChunkInv_casStatus db docId .received .quarantined (by decide) (by decide) h
  | extractOp docId ok =>
    cases ok with
    | true =>
      exact docChunkInv_casStatus db docId .validated .extracted (by decide) (by decide) h
    | false =>
      exact docChunkInv_casStatus db docId .validated .failed (by decide) (by decide) h
  | anonymizeOp docId =>
    exact docChunkInv_casStatus db docId .extracted .anonymized (by decide) (by decide) h
  | storeOp docId cd => exact docChunkInv_store db docId cd h
  | deleteOp owner docId => exact docChunkInv_delete db owner docId h

/-- Claim C6: in every reachable state, a Document with status `indexed` owns
exactly the chunks produced for it (at least one, missing none), and a
Document with status `deleted` owns zero chunks — the cascade being atomic
with the status change. -/
theorem indexed_document_chunks (db : DB) (hdb : Reach db) :
    ∀ id d, db.docs id = some d →
      (d.status = DocStatus.indexed → chunkCount db id = d.produced ∧ 1 ≤ d.produced) ∧
      (d.status = DocStatus.deleted → chunkCount db id = 0) := by
  have hinv : DocChunkInv db := by
    induction hdb with
    | init => exact docChunkInv_init
    | step db2 op _ ih => exact docChunkInv_applyOp db2 op ih
  intro id d hd
  have h2 := hinv.2 id d hd
  refine ⟨h2.1, fun hdel => h2.2 ?_⟩
  rw [hdel]
  decide

/-- A full accepted ingestion run for one document of owner 7. -/
def demoOps : List Op :=
  [ .submitOp 1 7 "cv.pdf" "application/pdf" 1000 100
  , .validateOp 1
  , .extractOp 1 true
  , .anonymizeOp 1
  , .storeOp 1 [("python developer", embed "python developer")] ]

/-- The state after the demo ingestion run. -/
def dbReached : DB := applyOps dbInit demoOps

/-- The demo state is reachable. -/
theorem dbReached_reach : Reach dbReached := by
  show Reach (applyOp (applyOp (applyOp (applyOp (applyOp dbInit
    (.submitOp 1 7 "cv.pdf" "application/pdf" 1000 100)) (.validateOp 1)) (.extractOp 1 true))
    (.anonymizeOp 1)) (.storeOp 1 [("python developer", embed "python developer")]))
  exact Reach.step _ _ (Reach.step _ _ (Reach.step _ _ (Reach.step _ _ (Reach.step _ _ Reach.init))))

/-- Claim C6 witness: in the concrete reachable state the indexed document 1
owns exactly its one produced chunk. -/
theorem indexed_document_chunks_witness :
    chunkCount dbReached 1 = 1 ∧ 1 ≤ 1 := by
  have h := indexed_document_chunks dbReached dbReached_reach 1
    ⟨7, .indexed, "cv.pdf", 100, 1⟩ (by decide)
  exact h.1 rfl

/- ### Stability of deletion (Claim C7) -/

/-- A deleted document: its record is marked `deleted` and it owns no chunks. -/
def Gone (db : DB) (docId : Nat) : Prop :=
  (∃ d, db.docs docId = some d ∧ d.status = DocStatus.deleted) ∧ chunkCount db docId = 0

/-- A compare-and-set whose expected predecessor state is not `deleted` can
never touch a deleted document. -/
theorem gone_casStatus (db : DB) (id : Nat) (was nxt : DocStatus) (docId : Nat)
    (hw : was ≠ DocStatus.deleted) (h : Gone db docId) :
    Gone (casStatus db id was nxt) docId := by
  obtain ⟨⟨d, hd, hdel⟩, hcount⟩ := h
  cases hdi : db.docs id with
  | none =>
    have heq : casStatus db id was nxt = db := by
      unfold casStatus
      rw [hdi]
    rw [heq]
    exact ⟨⟨d, hd, hdel⟩, hcount⟩
  | some e =>
    have heq : casStatus db id was nxt =
        if e.status = was then setDoc db id { e with status := nxt } else db := by
      unfold casStatus
      rw [hdi]
    rw [heq]
    by_cases hst : e.status = was
    · rw [if_pos hst]
      by_cases hji : docId = id
      · exfalso
        rw [hji, hdi] at hd
        injection hd with hde
        subst hde
        rw [hdel] at hst
        exact hw hst.symm
      · refine ⟨⟨d, ?_, hdel⟩, hcount⟩
        show (if docId = id then some { e with status := nxt } else db.docs docId) = some d
        rw [if_neg hji]
        exact hd
    · rw [if_neg hst]
      exact ⟨⟨d, hd, hdel⟩, hcount⟩

/-- `submit` can never touch a deleted document: its identifier is occupied,
so the attempt is a no-op there (and a fresh creation concerns another id). -/
theorem gone_submit (db : DB) (id owner : Nat) (fn ct : String) (sz ts : Nat) (docId : Nat)
    (h : Gone db docId) :
    Gone (match submit uploadConfig db id owner fn ct sz ts with
      | .ok db2 => db2
      | .error _ => db) docId := by
  obtain ⟨⟨d, hd, hdel⟩, hcount⟩ := h
  unfold submit
  by_cases h1 : ¬ uploadConfig.allowedContentTypes.contains ct
  · rw [if_pos h1]
    exact ⟨⟨d, hd, hdel⟩, hcount⟩
  · rw [if_neg h1]
    by_cases h2 : uploadConfig.maxSizeBytes < sz
    · rw [if_pos h2]
      exact ⟨⟨d, hd, hdel⟩, hcount⟩
    · rw [if_neg h2]
      cases hdi : db.docs id with
      | some e => exact ⟨⟨d, hd, hdel⟩, hcount⟩
      | none =>
        have hji : docId ≠ id := by
          intro hji
          rw [hji, hdi] at hd
          cases hd
        refine ⟨⟨d, ?_, hdel⟩, hcount⟩
        show (if docId = id then some ⟨owner, .received, fn, ts, 0⟩ else db.docs docId) = some d
        rw [if_neg hji]
        exact hd

/-- `store` can never touch a deleted document (its status is not the
expected predecessor `anonymized`), and chunks stored for another document
do not change the deleted document's zero count. -/
theorem gone_store (db : DB) (id : Nat) (cd : List (String × List Int)) (docId : Nat)
    (h : Gone db docId) : Gone (store db id cd) docId := by
  obtain ⟨⟨d, hd, hdel⟩, hcount⟩ := h
  cases hdi : db.docs id with
  | none =>
    have heq : store db id cd = db := by
      unfold store
      rw [hdi]
    rw [heq]
    exact ⟨⟨d, hd, hdel⟩, hcount⟩
  | some e =>
    have heq : store db id cd =
        if e.status = DocStatus.anonymized then
          if cd.isEmpty then
            setDoc db id { e with status := .failed }
          else
            { docs := fun j =>
                if j = id then some { e with status := .indexed, produced := cd.length }
                else db.docs j
            , chunks := db.chunks ++
                cd.enum.map (fun p => (⟨id, p.1, p.2.1, p.2.2⟩ : Chunk)) }
        else db := by
      unfold store
      rw [hdi]
    rw [heq]
    by_cases hst : e.status = DocStatus.anonymized
    · rw [if_pos hst]
      have hji : docId ≠ id := by
        intro hji
        rw [hji, hdi] at hd
        injection hd with hde
        subst hde
        rw [hdel] at hst
        cases hst
      by_cases hcd : cd.isEmpty
      · rw [if_pos hcd]
        refine ⟨⟨d, ?_, hdel⟩, hcount⟩
        show (if docId = id then some { e with status := .failed } else db.docs docId) = some d
        rw [if_neg hji]
        exact hd
      · rw [if_neg hcd]
        refine ⟨⟨d, ?_, hdel⟩, ?_⟩
        · show (if docId = id then some { e with status := .indexed, produced := cd.length }
            else db.docs docId) = some d
          rw [if_neg hji]
          exact hd
        · show (List.filter (fun c => c.docId == docId)
            (db.chunks ++ cd.enum.map (fun p => (⟨id, p.1, p.2.1, p.2.2⟩ : Chunk)))).length = 0
          rw [countChunks_append, countChunks_new_other id docId hji]
          unfold chunkCount at hcount
          omega
    · rw [if_neg hst]
      exact ⟨⟨d, hd, hdel⟩, hcount⟩

/-- A (repeated or unrelated) delete keeps a deleted document deleted and
chunkless. -/
theorem gone_deleteOp (db : DB) (ow id docId : Nat) (h : Gone db docId) :
    Gone (match deleteDocument db ow id with
      | .ok db2 => db2
      | .error _ => db) docId := by
  obtain ⟨⟨d, hd, hdel⟩, hcount⟩ := h
  cases hdi : db.docs id with
  | none =>
    have heq : deleteDocument db ow id = .error .notFound := by
      unfold deleteDocument
      simp only [hdi]
    rw [heq]
    exact ⟨⟨d, hd, hdel⟩, hcount⟩
  | some e =>
    by_cases how : e.owner ≠ ow
    · have heq : deleteDocument db ow id = .error .authorization := by
        unfold deleteDocument
        simp only [hdi]
        rw [if_pos how]
      rw [heq]
      exact ⟨⟨d, hd, hdel⟩, hcount⟩
    · have heq : deleteDocument db ow id =
          .ok { docs := fun j =>
                  if j = id then some { e with status := .deleted } else db.docs j
              , chunks := db.chunks.filter (fun c => !(c.docId == id)) } := by
        unfold deleteDocument
        simp only [hdi]
        rw [if_neg how]
      simp only [heq]
      by_cases hji : docId = id
      · subst hji
        refine ⟨⟨{ e with status := .deleted }, ?_, rfl⟩, ?_⟩
        · show (if docId = docId then some { e with status := DocStatus.deleted }
            else db.docs docId) = some { e with status := DocStatus.deleted }
          rw [if_pos rfl]
        · exact countChunks_filter_self db.chunks docId
      · refine ⟨⟨d, ?_, hdel⟩, ?_⟩
        · show (if docId = id then some { e with status := DocStatus.deleted }
            else db.docs docId) = some d
          rw [if_neg hji]
          exact hd
        · show (List.filter (fun c => c.docId == docId)
            (db.chunks.filter (fun c => !(c.docId == id)))).length = 0
          rw [countChunks_filter_other db.chunks id docId hji]
          exact hcount

/-- Once a document is deleted and chunkless, it stays so under every
pipeline operation. -/
theorem gone_applyOp (db : DB) (op : Op) (docId : Nat) (h : Gone db docId) :
    Gone (applyOp db op) docId := by
  cases op with
  | submitOp id owner fn ct sz ts => exact gone_submit db id owner fn ct sz ts docId h
  | validateOp id => exact gone_casStatus db id .received .validated docId (by decide) h
  | quarantineOp id => exact gone_casStatus db id .received .quarantined docId (by decide) h
  | extractOp id ok =>
    cases ok with
    | true => exact gone_casStatus db id .validated .extracted docId (by decide) h
    | false => exact gone_casStatus db id .validated .failed docId (by decide) h
  | anonymizeOp id => exact gone_casStatus db id .extracted .anonymized docId (by decide) h
  | storeOp id cd => exact gone_store db id cd docId h
  | deleteOp ow id => exact gone_deleteOp db ow id docId h

/-- Deleted-and-chunkless is stable under every operation sequence. -/
theorem gone_applyOps (db : DB) (ops : List Op) (docId : Nat) (h : Gone db docId) :
    Gone (applyOps db ops) docId := by
  induction ops generalizing db with
  | nil => exact h
  | cons op rest ih => exact ih (applyOp db op) (gone_applyOp db op docId h)

/-- A successful `deleteDocument` leaves the document deleted and chunkless. -/
theorem deleteDocument_gone (db : DB) (owner docId : Nat) (db2 : DB)
    (hdel : deleteDocument db owner docId = .ok db2) : Gone db2 docId := by
  cases hd : db.docs docId with
  | none =>
    rw [show deleteDocument db owner docId = .error .notFound from by
      unfold deleteDocument
      simp only [hd]] at hdel
    cases hdel
  | some d =>
    by_cases how : d.owner ≠ owner
    · rw [show deleteDocument db owner docId = .error .authorization from by
        unfold deleteDocument
        simp only [hd]
        rw [if_pos how]] at hdel
      cases hdel
    · rw [show deleteDocument db owner docId =
          .ok { docs := fun j =>
                  if j = docId then some { d with status := .deleted } else db.docs j
              , chunks := db.chunks.filter (fun c => !(c.docId == docId)) } from by
        unfold deleteDocument
        simp only [hd]
        rw [if_neg how]] at hdel
      injection hdel with h2
      subst h2
      refine ⟨⟨{ d with status := .deleted }, ?_, rfl⟩, ?_⟩
      · show (if docId = docId then some { d with status := DocStatus.deleted }
          else db.docs docId) = some { d with status := DocStatus.deleted }
        rw [if_pos rfl]
      · exact countChunks_filter_self db.chunks docId

/-- A search never returns a chunk of a document that owns zero chunks. -/
theorem search_avoids_chunkless (db : DB) (o : Nat) (qv : List Int) (lim : Nat) (ms : Score)
    (r : SearchResult) (docId : Nat) (hc : chunkCount db docId = 0)
    (hr : r ∈ searchStore db o qv lim ms) : r.chunk.docId ≠ docId := by
  obtain ⟨hmem, -, -, -⟩ := searchStore_spec db o qv lim ms r hr
  intro heq
  have hm2 : r.chunk ∈ db.chunks.filter (fun c => c.docId == docId) :=
    List.mem_filter.mpr ⟨hmem, by rw [heq]; exact beq_self_eq_true docId⟩
  have hne : db.chunks.filter (fun c => c.docId == docId) ≠ [] := List.ne_nil_of_mem hm2
  have hpos : 0 < (db.chunks.filter (fun c => c.docId == docId)).length :=
    List.length_pos.mpr hne
  unfold chunkCount at hc
  omega

/-- Claim C7: after `delete(owner, doc_id)` succeeds, no subsequent search —
for any query, caller, limit or threshold, after any further sequence of
pipeline operations — ever returns a Chunk belonging to `doc_id`. -/
theorem delete_cascade (db : DB) (owner docId : Nat) (db2 : DB)
    (hdel : deleteDocument db owner docId = .ok db2) (ops : List Op)
    (searchOwner : Nat) (q : String) (limit : Nat) (ms : Score) (r : SearchResult)
    (hr : r ∈ searchStore (applyOps db2 ops) searchOwner (embed q) limit ms) :
    r.chunk.docId ≠ docId := by
  have hg := gone_applyOps db2 ops docId (deleteDocument_gone db owner docId db2 hdel)
  exact search_avoids_chunkless _ _ _ _ _ r docId hg.2 hr

/-- A store with two indexed documents for owner 7. -/
def dbTwo : DB :=
  { docs := fun j =>
      if j = 1 then some ⟨7, .indexed, "a.pdf", 10, 1⟩
      else if j = 2 then some ⟨7, .indexed, "b.pdf", 20, 1⟩
      else none
  , chunks := [⟨1, 0, "uno", embed "uno"⟩, ⟨2, 0, "dos", embed "dos"⟩] }

/-- `dbTwo` after document 1 is deleted. -/
def dbTwoAfter : DB :=
  { docs := fun j =>
      if j = 1 then some ⟨7, DocStatus.deleted, "a.pdf", 10, 1⟩ else dbTwo.docs j
  , chunks := dbTwo.chunks.filter (fun c => !(c.docId == 1)) }

/-- The surviving search hit after the deletion. -/
def demoResult2 : SearchResult :=
  { chunk := ⟨2, 0, "dos", embed "dos"⟩
  , filename := "b.pdf"
  , uploadedAt := 20
  , score := ⟨1, 1⟩ }

/-- Claim C7 witness: after deleting document 1 the surviving hit belongs to
document 2, not to the deleted document. -/
theorem delete_cascade_witness : demoResult2.chunk.docId ≠ 1 :=
  delete_cascade dbTwo 7 1 dbTwoAfter rfl [] 7 "dos" 5 ⟨3, 10⟩ demoResult2 (by decide)

end OrientaTech
